import Mathlib

/-!
Verification development for the PuriPuly-heart realtime speech-translation
relay.  The components under test are shallowly embedded from the Python
sources:

* RingBufferF32            -- core/audio/ring_buffer.py
* VadGating                -- core/vad/gating.py
* PCM16LE conversion       -- core/audio/format.py
* SmartOscQueue            -- core/osc/smart_queue.py
* ClientHub context policy -- core/orchestrator/hub.py
* ManagedSTTProvider       -- core/stt/controller.py
* UtteranceBundle          -- domain/models.py

Audio samples and monotonic clock values are modelled as exact rationals;
the float32 arithmetic of the source is idealised as exact arithmetic on
rationals (every quantity manipulated by the embedded code is a 16-bit
integer scaled by a power of two, except where a comment states otherwise).
-/

/-- Fixed-capacity circular store of f32 mono samples, from
ring_buffer.py (RingBufferF32).  The numpy float32 array is modelled as a
List of rationals whose length is the capacity. -/
structure RingBufferF32 where
  capacitySamples : Nat
  buffer : List ℚ
  writePos : Nat
  filled : Bool
deriving DecidableEq, Repr

/-- Slice assignment, the model of numpy buffer[start : start + xs.length] = xs. -/
def setSlice (l : List ℚ) (start : Nat) (xs : List ℚ) : List ℚ :=
  l.take start ++ xs ++ l.drop (start + xs.length)

/-- RingBufferF32.__init__: zeroed buffer, write position 0, not filled. -/
def freshRB (capacitySamples : Nat) : RingBufferF32 :=
  { capacitySamples := capacitySamples
    buffer := List.replicate capacitySamples 0
    writePos := 0
    filled := false }

/-- RingBufferF32.append, translated line by line from ring_buffer.py:
empty input returns early; input of at least capacity keeps the last
capacity samples and resets the cursor; otherwise the samples are written
at the cursor, wrapping, and the filled flag is set only when the new
write position is exactly 0. -/
def RingBufferF32.append (rb : RingBufferF32) (samples : List ℚ) : RingBufferF32 :=
  if samples.length = 0 then rb
  else if rb.capacitySamples ≤ samples.length then
    { rb with
        buffer := samples.drop (samples.length - rb.capacitySamples)
        writePos := 0
        filled := true }
  else
    let endPos := rb.writePos + samples.length
    let buf :=
      if endPos ≤ rb.capacitySamples then
        setSlice rb.buffer rb.writePos samples
      else
        let first := rb.capacitySamples - rb.writePos
        setSlice (setSlice rb.buffer rb.writePos (samples.take first)) 0 (samples.drop first)
    let wp := endPos % rb.capacitySamples
    { rb with
        buffer := buf
        writePos := wp
        filled := if wp = 0 then true else rb.filled }

/-- RingBufferF32.get_last_samples, translated from ring_buffer.py.  The
count parameter is an integer because the source accepts and checks
non-positive counts.  Python's modulo on a positive modulus is Int.emod. -/
def RingBufferF32.getLastSamples (rb : RingBufferF32) (count : Int) : List ℚ :=
  if count ≤ 0 then []
  else
    let available : Int := if rb.filled then rb.capacitySamples else rb.writePos
    let c : Int := min count available
    let start : Nat := (((rb.writePos : Int) - c).emod (rb.capacitySamples : Int)).toNat
    if c = 0 then []
    else if start < rb.writePos ∨ rb.filled = false then
      (rb.buffer.drop start).take c.toNat
    else
      let tl := rb.buffer.drop start
      let hd := rb.buffer.take (c.toNat - tl.length)
      tl ++ hd

/-- Folds a sequence of append calls over a ring buffer. -/
def appendAll (rb : RingBufferF32) (chunks : List (List ℚ)) : RingBufferF32 :=
  chunks.foldl RingBufferF32.append rb

/-- Rounding to the nearest integer with ties to even, the semantics of
numpy.round used by format.py. -/
def roundHalfEven (q : ℚ) : ℤ :=
  let f := ⌊q⌋
  let r := q - f
  if r < 1/2 then f
  else if 1/2 < r then f + 1
  else if f % 2 = 0 then f else f + 1

/-- pcm16le_bytes_to_float32 from format.py, per sample: the int16 value is
divided by 32768 (exact in float32, so the rational model is faithful). -/
def pcm16ToF32 (n : ℤ) : ℚ :=
  (n : ℚ) / 32768

/-- float32_to_pcm16le_bytes from format.py, per sample: clip to [-1, 1],
multiply by 32767 and round half-to-even.  The float32 rounding of the
product is idealised as exact. -/
def f32ToPcm16 (x : ℚ) : ℤ :=
  roundHalfEven (max (-1) (min 1 x) * 32767)

/-- VAD gating events from gating.py (SpeechStart, SpeechChunk, SpeechEnd);
utterance ids are modelled as naturals. -/
inductive VadEventM
  | speechStart (utteranceId : Nat) (preRoll : List ℚ) (chunk : List ℚ)
  | speechChunk (utteranceId : Nat) (chunk : List ℚ)
  | speechEnd (utteranceId : Nat)
deriving DecidableEq, Repr

/-- VadGating state from gating.py.  The injected VAD engine is modelled by
passing the speech probability as an argument to processChunk; uuid4
minting is modelled by the nextId counter. -/
structure VadGating where
  sampleRateHz : Nat
  speechThreshold : ℚ
  hangoverChunks : Nat
  chunkSamples : Nat
  ring : RingBufferF32
  inSpeech : Bool
  utteranceId : Option Nat
  silenceRun : Nat
  nextId : Nat
deriving DecidableEq, Repr

/-- VadGating.process_chunk translated from gating.py.  The ValueError on a
chunk-size mismatch becomes Except.error.  Branches follow the source: not
in speech appends the chunk to the ring in both subcases; in speech with
probability at or above threshold returns right after resetting the
silence run; the below-threshold branches append to the ring last. -/
def VadGating.processChunk (g : VadGating) (prob : ℚ) (chunk : List ℚ) :
    Except String (List VadEventM × VadGating) :=
  if chunk.length ≠ g.chunkSamples then
    .error "chunk must have chunk_samples samples"
  else if g.inSpeech = false then
    if g.speechThreshold ≤ prob then
      let uid := g.nextId
      let preRoll := g.ring.getLastSamples (g.ring.capacitySamples : Int)
      .ok ([.speechStart uid preRoll chunk],
        { g with
            inSpeech := true
            silenceRun := 0
            utteranceId := some uid
            nextId := g.nextId + 1
            ring := g.ring.append chunk })
    else
      .ok ([], { g with ring := g.ring.append chunk })
  else
    let uid := g.utteranceId.getD 0
    if g.speechThreshold ≤ prob then
      .ok ([.speechChunk uid chunk], { g with silenceRun := 0 })
    else
      let sr := g.silenceRun + 1
      if g.hangoverChunks ≤ sr then
        .ok ([.speechChunk uid chunk, .speechEnd uid],
          { g with
              inSpeech := false
              utteranceId := none
              silenceRun := 0
              ring := g.ring.append chunk })
      else
        .ok ([.speechChunk uid chunk],
          { g with silenceRun := sr, ring := g.ring.append chunk })

/-- OSCMessage from domain/models.py; created_at is monotonic seconds. -/
structure OSCMessage where
  utteranceId : Nat
  text : String
  createdAt : ℚ
deriving DecidableEq, Repr

/-- Configuration fields of SmartOscQueue (smart_queue.py); __post_init__
requires all three to be positive. -/
structure OscConfig where
  maxChars : Nat
  cooldownS : ℚ
  ttlS : ℚ
deriving DecidableEq, Repr

/-- Mutable state of SmartOscQueue: the pending list and the next-send
deadline. -/
structure QState where
  pending : List OSCMessage
  nextSendAt : ℚ
deriving DecidableEq, Repr

/-- One call to sender.send_chatbox: time, text, the non-expired pending
batch whose texts were combined, and whether the sender succeeded (false
models the sender raising OSError). -/
structure SendAttempt where
  time : ℚ
  text : String
  batch : List OSCMessage
  ok : Bool
deriving DecidableEq, Repr

/-- SmartOscQueue._drop_expired: keep messages whose age is at most ttl_s. -/
def dropExpired (cfg : OscConfig) (now : ℚ) (ms : List OSCMessage) : List OSCMessage :=
  ms.filter (fun m => now - m.createdAt ≤ cfg.ttlS)

/-- Python " ".join. -/
def joinSpace : List String → String
  | [] => ""
  | [s] => s
  | s :: rest => s ++ " " ++ joinSpace rest

/-- Python whitespace test for str.strip, restricted to the four common
whitespace characters. -/
def isWs (c : Char) : Bool :=
  c = ' ' ∨ c = '\t' ∨ c = '\n' ∨ c = '\r'

/-- Python str.strip: remove leading and trailing whitespace. -/
def stripStr (s : String) : String :=
  String.mk (((s.toList.dropWhile isWs).reverse.dropWhile isWs).reverse)

/-- SmartOscQueue._combine_pending, text half: join the non-empty texts
with spaces and strip the result. -/
def combineText (ms : List OSCMessage) : String :=
  stripStr (joinSpace ((ms.map (fun m => m.text)).filter (fun t => t ≠ "")))

/-- SmartOscQueue._combine_pending, created_at half: the minimum created_at
of the batch.  The source only evaluates this on a non-empty list; the
empty case returns 0 and is unreachable. -/
def minCreatedAt : List OSCMessage → ℚ
  | [] => 0
  | m :: ms => ms.foldl (fun a x => min a x.createdAt) m.createdAt

/-- Splits a character list into pieces of at most w characters; fuel is
the list length. -/
def chunksGo (w : Nat) : Nat → List Char → List String
  | 0, _ => []
  | _, [] => []
  | fuel + 1, l => String.mk (l.take w) :: chunksGo w fuel (l.drop w)

/-- Model of textwrap.wrap(text, width, break_long_words=True,
break_on_hyphens=False): split into whitespace-separated words, break
words longer than the width into width-sized pieces, then greedily fill
lines of at most width characters joined by single spaces. -/
def wrapWords (width : Nat) (text : String) : List String :=
  let words := (text.split (fun c => isWs c)).filter (fun w => w ≠ "")
  let pieces := words.flatMap (fun w =>
    if w.length ≤ width then [w] else chunksGo width w.length w.toList)
  let step := fun (acc : List String × String) (w : String) =>
    if acc.2 = "" then (acc.1, w)
    else if acc.2.length + 1 + w.length ≤ width then (acc.1, acc.2 ++ " " ++ w)
    else (acc.1 ++ [acc.2], w)
  let fin := pieces.foldl step ([], "")
  if fin.2 = "" then fin.1 else fin.1 ++ [fin.2]

/-- SmartOscQueue._split_text: a text short enough is one page, otherwise
wrap it. -/
def splitText (maxChars : Nat) (text : String) : List String :=
  if text.length ≤ maxChars then [text] else wrapWords maxChars text

/-- SmartOscQueue.process_due translated from smart_queue.py.  The sender
outcome for this call is the ok argument; a send attempt is reported as a
SendAttempt.  On a failed send the source returns before clearing pending
and before advancing next_send_at (pending already holds the
expired-filtered list, mutated in place by _drop_expired).  On success the
remaining pages are re-enqueued as one message keyed by the head message
utterance id with the earliest created_at of the batch. -/
def processDue (cfg : OscConfig) (now : ℚ) (ok : Bool) (st : QState) :
    QState × Option SendAttempt :=
  if now < st.nextSendAt then (st, none)
  else
    let pend := dropExpired cfg now st.pending
    if pend.isEmpty then ({ pending := pend, nextSendAt := st.nextSendAt }, none)
    else
      let headUid := ((pend.head?).map (fun m => m.utteranceId)).getD 0
      let combined := combineText pend
      let createdAt := minCreatedAt pend
      if combined = "" then ({ pending := [], nextSendAt := st.nextSendAt }, none)
      else
        let parts := splitText cfg.maxChars combined
        let hd := parts.headD ""
        let tl := parts.tail
        let att : SendAttempt := { time := now, text := hd, batch := pend, ok := ok }
        if ok = false then
          ({ pending := pend, nextSendAt := st.nextSendAt }, some att)
        else
          let newPending : List OSCMessage :=
            if tl.isEmpty then []
            else [{ utteranceId := headUid, text := joinSpace tl, createdAt := createdAt }]
          ({ pending := newPending, nextSendAt := now + cfg.cooldownS }, some att)

/-- External operations on the queue: enqueue (which appends and then runs
process_due) and a flush tick (bare process_due). -/
inductive QOp
  | enqueue (m : OSCMessage)
  | tick
deriving DecidableEq, Repr

/-- Applies one timed operation; ok is the sender outcome should this call
attempt a send. -/
def applyOp (cfg : OscConfig) (now : ℚ) (op : QOp) (ok : Bool) (st : QState) :
    QState × Option SendAttempt :=
  match op with
  | .tick => processDue cfg now ok st
  | .enqueue m => processDue cfg now ok { st with pending := st.pending ++ [m] }

/-- Runs a list of timed operations, accumulating the send-attempt log. -/
def runQueueAux (cfg : OscConfig) :
    QState → List SendAttempt → List (ℚ × QOp × Bool) → QState × List SendAttempt
  | st, log, [] => (st, log)
  | st, log, (now, op, ok) :: rest =>
    let r := applyOp cfg now op ok st
    runQueueAux cfg r.1 (log ++ r.2.toList) rest

/-- Runs operations from the initial queue state (empty pending,
next_send_at = 0). -/
def runQueue (cfg : OscConfig) (ops : List (ℚ × QOp × Bool)) :
    QState × List SendAttempt :=
  runQueueAux cfg { pending := [], nextSendAt := 0 } [] ops

/-- ContextEntry from orchestrator/hub.py: a recent utterance for context
memory.  The shipped dataclass has exactly these two fields. -/
structure ContextEntry where
  text : String
  timestamp : ℚ
deriving DecidableEq, Repr

/-- ClientHub._get_valid_context from hub.py: the last context_max_entries
history entries whose age is strictly below context_time_window_s.  Python
history[-k:] is the whole list when k = 0. -/
def getValidContext (contextMaxEntries : Nat) (contextTimeWindowS : ℚ)
    (now : ℚ) (history : List ContextEntry) : List ContextEntry :=
  let lastN :=
    if contextMaxEntries = 0 then history
    else history.drop (history.length - contextMaxEntries)
  lastN.filter (fun e => now - e.timestamp < contextTimeWindowS)

/-- Transcript from domain/models.py. -/
structure TranscriptRec where
  utteranceId : Nat
  text : String
  isFinal : Bool
  createdAt : Option ℚ
deriving DecidableEq, Repr

/-- Translation from domain/models.py. -/
structure TranslationRec where
  utteranceId : Nat
  text : String
  createdAt : Option ℚ
deriving DecidableEq, Repr

/-- UtteranceBundle from domain/models.py; partialTr is the field named
after the current partial transcript. -/
structure UtteranceBundle where
  utteranceId : Nat
  partialTr : Option TranscriptRec
  final : Option TranscriptRec
  translation : Option TranslationRec
deriving DecidableEq, Repr

/-- UtteranceBundle.with_transcript from domain/models.py: a mismatched
utterance id raises (Except.error); a final transcript is stored and the
partial cleared; a non-final transcript is stored only when no final has
been set yet, otherwise the bundle is returned unchanged. -/
def UtteranceBundle.withTranscript (b : UtteranceBundle) (t : TranscriptRec) :
    Except String UtteranceBundle :=
  if t.utteranceId ≠ b.utteranceId then .error "utterance_id mismatch"
  else if t.isFinal then .ok { b with final := some t, partialTr := none }
  else if b.final = none then .ok { b with partialTr := some t }
  else .ok b

/-- Utterance-id correlation state of ManagedSTTProvider (controller.py):
the active utterance id and the pending-final utterance id. -/
structure CtrlState where
  activeId : Option Nat
  pendingId : Option Nat
deriving DecidableEq, Repr

/-- Inputs that touch the correlation state: the VAD events routed through
handle_vad_event, and an inbound transcript event from any open backend
session (active or draining), consumed by _consume_session_events.  Both
consumer tasks share the controller state, so an interleaving of the
sessions is a single input list. -/
inductive CtrlIn
  | speechStart (utteranceId : Nat)
  | speechChunk (utteranceId : Nat)
  | speechEnd (utteranceId : Nat)
  | sessionTranscript (text : String) (isFinal : Bool)
deriving DecidableEq, Repr

/-- Typed events the controller emits to the hub, restricted to transcript
events (STTPartialEvent / STTFinalEvent from domain/events.py). -/
inductive STTOut
  | finalEv (utteranceId : Nat) (text : String)
  | partialEv (utteranceId : Nat) (text : String)
deriving DecidableEq, Repr

/-- One step of the ManagedSTTProvider correlation logic, translated from
controller.py: _on_speech_start sets the active id and clears the pending
final; _on_speech_chunk sets the active id; _on_speech_end clears the
active id when it matches and records the id as pending final;
_consume_session_events tags an inbound transcript with the active id,
falling back to the pending-final id, drops it if neither is set, and
after emitting a final clears the pending-final id only when it equals the
tag and no utterance is active. -/
def ctrlStep (st : CtrlState) : CtrlIn → CtrlState × List STTOut
  | .speechStart uid => ({ activeId := some uid, pendingId := none }, [])
  | .speechChunk uid => ({ st with activeId := some uid }, [])
  | .speechEnd uid =>
    ({ activeId := if st.activeId = some uid then none else st.activeId
       pendingId := some uid }, [])
  | .sessionTranscript text isFinal =>
    match st.activeId.orElse (fun _ => st.pendingId) with
    | none => (st, [])
    | some uid =>
      if isFinal then
        (if st.pendingId = some uid ∧ st.activeId = none then
           { st with pendingId := none }
         else st,
         [.finalEv uid text])
      else
        (st, [.partialEv uid text])

/-- Runs the controller correlation logic over an input list, collecting
the emitted transcript events in order. -/
def ctrlRun (st : CtrlState) : List CtrlIn → CtrlState × List STTOut
  | [] => (st, [])
  | i :: rest =>
    let r := ctrlStep st i
    let r2 := ctrlRun r.1 rest
    (r2.1, r.2 ++ r2.2)

/-- Number of STTFinalEvents tagged with a given utterance id. -/
def countFinals (outs : List STTOut) (uid : Nat) : Nat :=
  (outs.filter (fun o =>
    match o with
    | .finalEv i _ => i = uid
    | .partialEv _ _ => false)).length

/-!
Helper lemmas shared by the claim theorems below.
-/

/-- Counting finals distributes over list concatenation. -/
lemma countFinals_append (a b : List STTOut) (uid : Nat) :
    countFinals (a ++ b) uid = countFinals a uid + countFinals b uid := by
  simp [countFinals, List.filter_append]

/-- With no active and no pending utterance id, session transcripts are all
dropped and the correlation state does not change. -/
lemma ctrlRun_idle_no_output (evs : List (String × Bool)) :
    ctrlRun { activeId := none, pendingId := none }
      (evs.map (fun p => CtrlIn.sessionTranscript p.1 p.2)) =
    ({ activeId := none, pendingId := none }, []) := by
  induction evs with
  | nil => rfl
  | cons e rest ih => simpa [ctrlRun, ctrlStep, Option.orElse] using ih

/-- Half-to-even rounding of an integer plus a perturbation strictly inside
the open interval from minus one half to one half returns the integer. -/
lemma roundHalfEven_add_small (z : ℤ) (e : ℚ) (h1 : -(1/2) < e) (h2 : e < 1/2) :
    roundHalfEven ((z : ℚ) + e) = z := by
  unfold roundHalfEven
  rcases le_or_lt 0 e with he | he
  · have hf : ⌊(z : ℚ) + e⌋ = z := by
      rw [Int.floor_eq_iff]
      constructor
      · linarith
      · linarith
    rw [hf]
    dsimp only
    have hre : (z : ℚ) + e - (z : ℤ) = e := by ring
    rw [hre, if_pos h2]
  · have hf : ⌊(z : ℚ) + e⌋ = z - 1 := by
      rw [Int.floor_eq_iff]
      constructor
      · push_cast
        linarith
      · push_cast
        linarith
    rw [hf]
    dsimp only
    have he1 : (z : ℚ) + e - ((z - 1 : ℤ) : ℚ) = e + 1 := by push_cast; ring
    rw [he1]
    have hn1 : ¬ (e + 1 < 1/2) := by linarith
    have hn2 : (1:ℚ)/2 < e + 1 := by linarith
    rw [if_neg hn1, if_pos hn2]
    ring

/-- Every message surviving the expiry filter is at most ttl_s old. -/
lemma dropExpired_mem_fresh (cfg : OscConfig) (now : ℚ) (l : List OSCMessage)
    (m : OSCMessage) (hm : m ∈ dropExpired cfg now l) : now - m.createdAt ≤ cfg.ttlS := by
  have := List.of_mem_filter hm
  exact of_decide_eq_true this

/-- Behaviour of process_due relevant to cooldown and TTL reasoning: when
no attempt is reported the deadline is unchanged; when an attempt is
reported, it happened at the current time, the cooldown had elapsed, its
batch is the expiry-filtered pending list, and the deadline advances
exactly on success. -/
lemma processDue_send_spec (cfg : OscConfig) (now : ℚ) (ok : Bool) (st : QState) :
    ((processDue cfg now ok st).2 = none →
       (processDue cfg now ok st).1.nextSendAt = st.nextSendAt) ∧
    (∀ a : SendAttempt, (processDue cfg now ok st).2 = some a →
       a.time = now ∧ a.ok = ok ∧ st.nextSendAt ≤ now ∧
       a.batch = dropExpired cfg now st.pending ∧
       (processDue cfg now ok st).1.nextSendAt =
         (if ok then now + cfg.cooldownS else st.nextSendAt)) := by
  unfold processDue
  by_cases h1 : now < st.nextSendAt
  · simp [h1]
  · by_cases h2 : (dropExpired cfg now st.pending).isEmpty
    · simp [h1, h2]
    · by_cases h3 : combineText (dropExpired cfg now st.pending) = ""
      · simp [h1, h2, h3]
      · cases ok with
        | false =>
          simp only [h1, if_false, h2, h3]
          constructor
          · intro hc
            simp at hc
          · intro a ha
            simp at ha
            constructor
            · rw [← ha]
            · refine ⟨by rw [← ha], not_lt.mp h1, by rw [← ha], ?_⟩
              simp
        | true =>
          simp only [h1, if_false, h2, h3]
          constructor
          · intro hc
            simp at hc
          · intro a ha
            simp at ha
            refine ⟨by rw [← ha], by rw [← ha], not_lt.mp h1, by rw [← ha], ?_⟩
            simp

/-- Invariant of the queue run: the attempt log stays pairwise separated by
the cooldown after each successful send, and every batched message was
fresh at its attempt time. -/
lemma runQueueAux_sep_inv (cfg : OscConfig) (hcd : 0 ≤ cfg.cooldownS)
    (ops : List (ℚ × QOp × Bool)) :
    ∀ (st : QState) (log : List SendAttempt),
    List.Pairwise (fun a b => a.ok = true → a.time + cfg.cooldownS ≤ b.time) log →
    (∀ r ∈ log, r.ok = true → r.time + cfg.cooldownS ≤ st.nextSendAt) →
    (∀ r ∈ log, ∀ m ∈ r.batch, r.time - m.createdAt ≤ cfg.ttlS) →
    List.Pairwise (fun a b => a.ok = true → a.time + cfg.cooldownS ≤ b.time)
      (runQueueAux cfg st log ops).2 ∧
    (∀ r ∈ (runQueueAux cfg st log ops).2, ∀ m ∈ r.batch, r.time - m.createdAt ≤ cfg.ttlS) := by
  induction ops with
  | nil => intro st log hpw hnext httl; exact ⟨hpw, httl⟩
  | cons o rest ih =>
    intro st log hpw hnext httl
    obtain ⟨now, op, ok⟩ := o
    rw [runQueueAux]
    obtain ⟨st0, happ, hst0next⟩ :
        ∃ st0 : QState, applyOp cfg now op ok st = processDue cfg now ok st0 ∧
          st0.nextSendAt = st.nextSendAt := by
      cases op with
      | tick => exact ⟨st, rfl, rfl⟩
      | enqueue m => exact ⟨{ st with pending := st.pending ++ [m] }, rfl, rfl⟩
    have hspec := processDue_send_spec cfg now ok st0
    cases hatt : (processDue cfg now ok st0).2 with
    | none =>
      have hnx : (processDue cfg now ok st0).1.nextSendAt = st.nextSendAt := by
        rw [hspec.1 hatt, hst0next]
      apply ih
      · simpa [happ, hatt] using hpw
      · simpa [happ, hatt, hnx] using hnext
      · simpa [happ, hatt] using httl
    | some a =>
      obtain ⟨hta, hoka, hle, hbatch, hnx⟩ := hspec.2 a hatt
      rw [hst0next] at hle
      apply ih
      · rw [happ, hatt]
        rw [List.pairwise_append]
        refine ⟨hpw, by simp, ?_⟩
        intro x hx y hy hxok
        simp at hy
        subst hy
        rw [hta]
        calc x.time + cfg.cooldownS ≤ st.nextSendAt := hnext x hx hxok
          _ ≤ now := hle
      · rw [happ, hatt]
        intro r hr hrok
        simp at hr
        rcases hr with hr | hr
        · have hold : r.time + cfg.cooldownS ≤ st.nextSendAt := hnext r hr hrok
          cases ok with
          | true =>
            rw [hnx, if_pos rfl]
            calc r.time + cfg.cooldownS ≤ st.nextSendAt := hold
              _ ≤ now := hle
              _ ≤ now + cfg.cooldownS := by linarith
          | false =>
            rw [hnx, if_neg Bool.false_ne_true, hst0next]
            exact hold
        · subst hr
          cases ok with
          | true =>
            rw [hnx, hta, if_pos rfl]
          | false =>
            rw [hoka] at hrok
            exact absurd hrok (by simp)
      · rw [happ, hatt]
        intro r hr m hm
        simp at hr
        rcases hr with hr | hr
        · exact httl r hr m hm
        · subst hr
          rw [hta]
          rw [hbatch] at hm
          exact dropExpired_mem_fresh cfg now st0.pending m hm

/-!
Claim C1 (Managed STT final uniqueness).
-/

/-- Claim C1, counterexample.  The claim states that for every utterance id
the controller event stream contains zero or one STTFinalEvent tagged with
that id.  This is false: while an utterance is active (between SpeechStart
and SpeechEnd, exactly the situation of a bridging reset, where the
draining old session and the new session both feed the shared consumer
logic), every inbound session final is emitted tagged with the active id,
with no dedup.  The trace below produces two STTFinalEvents for id 0. -/
theorem ctrl_duplicate_finals_cex :
    ¬ (countFinals (ctrlRun { activeId := none, pendingId := none }
        [.speechStart 0, .sessionTranscript "a" true, .sessionTranscript "b" true]).2 0 ≤ 1) ∧
    countFinals (ctrlRun { activeId := none, pendingId := none }
        [.speechStart 0, .sessionTranscript "a" true, .sessionTranscript "b" true]).2 0 = 2 := by
  exact ⟨by decide, by decide⟩

/-- Claim C1, amended.  Once no utterance is active, the controller emits
at most one STTFinalEvent across any sequence of inbound session
transcripts: the first final consumes the pending-final id, after which
session events carry no id and are dropped.  (While an utterance is
active, duplicates are possible; see the counterexample.) -/
theorem ctrl_inactive_single_final (st : CtrlState) (h : st.activeId = none)
    (evs : List (String × Bool)) (uid : Nat) :
    countFinals (ctrlRun st (evs.map (fun p => CtrlIn.sessionTranscript p.1 p.2))).2 uid ≤ 1 := by
  induction evs generalizing st with
  | nil => simp [ctrlRun, countFinals]
  | cons e rest ih =>
    cases hst : st.pendingId with
    | none =>
      have hs : st = { activeId := none, pendingId := none } := by
        cases st; simp_all
      rw [hs, ctrlRun_idle_no_output]
      simp [countFinals]
    | some x =>
      have hs : st = { activeId := none, pendingId := some x } := by
        cases st; simp_all
      subst hs
      cases hfin : e.2 with
      | true =>
        rw [List.map_cons]
        simp only [ctrlRun, ctrlStep, hfin, Option.orElse]
        simp only [and_self, if_true]
        rw [ctrlRun_idle_no_output]
        by_cases hxu : x = uid <;> simp [countFinals_append, countFinals, List.filter, hxu]
      | false =>
        rw [List.map_cons]
        simp only [ctrlRun, ctrlStep, hfin, Option.orElse]
        simpa [countFinals_append, countFinals] using
          ih { activeId := none, pendingId := some x } rfl

/-- Claim C1, witness for the amended theorem at a concrete inactive state
with a pending final and two inbound session finals. -/
theorem ctrl_inactive_single_final_witness :
    (CtrlState.mk none (some 5)).activeId = none ∧
    countFinals (ctrlRun (CtrlState.mk none (some 5))
      ([("a", true), ("b", true)].map (fun p => CtrlIn.sessionTranscript p.1 p.2))).2 5 ≤ 1 :=
  ⟨rfl, ctrl_inactive_single_final (CtrlState.mk none (some 5)) rfl [("a", true), ("b", true)] 5⟩

/-!
Claim C2 (orchestrator context policy).
-/

/-- Claim C2.  The claim states that the context snapshot keeps only
entries whose language pair matches the current settings and whose text
length is at least 2.  The shipped _get_valid_context filters only by
recency and count: a one-character entry inside the time window is kept,
and ContextEntry stores no language fields at all.  (The repository's own
test suite, tests/test_context_memory.py, requires both filters and
imports names absent from the shipped hub, so the code contradicts its
tests: recorded as a code bug.)  This theorem evaluates the shipped code
at the failing input. -/
theorem hub_getValidContext_keeps_short_entry :
    getValidContext 3 20 10 [{ text := "a", timestamp := 9 }] =
      [{ text := "a", timestamp := 9 }] ∧
    ("a" : String).length < 2 := by
  constructor
  · norm_num [getValidContext]
  · decide

/-!
Claim C3 (VAD gating ring append while in speech).
-/

/-- Concrete in-speech gating state used for claim C3: ring of capacity 2
holding samples 1 and 2, chunk size 1, threshold 1. -/
def vadInSpeechState : VadGating :=
  { sampleRateHz := 16000
    speechThreshold := 1
    hangoverChunks := 2
    chunkSamples := 1
    ring := { capacitySamples := 2, buffer := [1, 2], writePos := 0, filled := true }
    inSpeech := true
    utteranceId := some 7
    silenceRun := 0
    nextId := 8 }

/-- Claim C3, counterexample.  The claim states that every chunk processed
while in speech is appended to the ring last, regardless of its speech
probability.  This is false for a chunk at or above the threshold: the
source resets the silence run and returns before the append, so the ring
is untouched and its most recent chunk_samples samples are not the chunk. -/
theorem vad_inSpeech_loud_chunk_not_appended :
    vadInSpeechState.processChunk 1 [5] =
      .ok ([.speechChunk 7 [5]], { vadInSpeechState with silenceRun := 0 }) ∧
    ({ vadInSpeechState with silenceRun := 0 }).ring.getLastSamples 1 = [2] ∧
    ([2] : List ℚ) ≠ [5] := by
  exact ⟨by norm_num [vadInSpeechState, VadGating.processChunk], by decide, by decide⟩

/-- Claim C3, amended.  For a chunk processed while in speech, the ring is
appended to exactly when the speech probability is below the threshold
(including the SpeechEnd branch); at or above the threshold the early
return leaves the ring untouched. -/
theorem vad_inSpeech_ring_append_below_threshold (g : VadGating) (prob : ℚ)
    (chunk : List ℚ) (evs : List VadEventM) (gNext : VadGating)
    (hs : g.inSpeech = true)
    (h : g.processChunk prob chunk = .ok (evs, gNext)) :
    gNext.ring = if g.speechThreshold ≤ prob then g.ring else g.ring.append chunk := by
  unfold VadGating.processChunk at h
  split_ifs at h with h1 h2 h3 h4 <;> try simp_all
  · rw [← h.2]
  · try rw [if_neg (not_le.mpr h4)]
    split at h <;> simp only [Except.ok.injEq, Prod.mk.injEq] at h <;> rw [← h.2]

/-- Claim C3, witness for the amended theorem: a below-threshold in-speech
chunk is appended to the ring. -/
theorem vad_ring_append_witness :
    (vadInSpeechState.inSpeech = true ∧
     vadInSpeechState.processChunk 0 [5] =
       .ok ([.speechChunk 7 [5]],
         { vadInSpeechState with silenceRun := 1, ring := vadInSpeechState.ring.append [5] })) ∧
    ({ vadInSpeechState with
        silenceRun := 1, ring := vadInSpeechState.ring.append [5] } : VadGating).ring =
      if vadInSpeechState.speechThreshold ≤ 0 then vadInSpeechState.ring
      else vadInSpeechState.ring.append [5] :=
  ⟨⟨rfl, rfl⟩,
   vad_inSpeech_ring_append_below_threshold vadInSpeechState 0 [5]
     [.speechChunk 7 [5]]
     { vadInSpeechState with silenceRun := 1, ring := vadInSpeechState.ring.append [5] }
     rfl rfl⟩

/-!
Claim C4 (OSC queue cooldown and TTL).
-/

/-- Claim C4.  Over any sequence of timed enqueue and tick operations with
any pattern of sender outcomes, the send-attempt log is pairwise
separated: after any successful send_chatbox call, every later call (and
in particular any call within the following cooldown window) happens at
least cooldown_s later; and every message contributing to an attempted
send was at most ttl_s old at that attempt, so no expired message is ever
sent. -/
theorem oscQueue_cooldown_and_ttl (cfg : OscConfig) (hcd : 0 ≤ cfg.cooldownS)
    (ops : List (ℚ × QOp × Bool)) :
    List.Pairwise (fun a b => a.ok = true → a.time + cfg.cooldownS ≤ b.time)
      (runQueue cfg ops).2 ∧
    (∀ r ∈ (runQueue cfg ops).2, ∀ m ∈ r.batch, r.time - m.createdAt ≤ cfg.ttlS) := by
  exact runQueueAux_sep_inv cfg hcd ops { pending := [], nextSendAt := 0 } []
    (by simp) (by simp) (by simp)

/-- Claim C4, witness at a concrete configuration and operation list. -/
theorem oscQueue_cooldown_and_ttl_witness :
    (0 : ℚ) ≤ (OscConfig.mk 144 2 7).cooldownS ∧
    (List.Pairwise (fun a b => a.ok = true → a.time + (OscConfig.mk 144 2 7).cooldownS ≤ b.time)
      (runQueue (OscConfig.mk 144 2 7)
        [(0, .enqueue { utteranceId := 0, text := "hi", createdAt := 0 }, true),
         (1, .tick, true)]).2 ∧
    (∀ r ∈ (runQueue (OscConfig.mk 144 2 7)
        [(0, .enqueue { utteranceId := 0, text := "hi", createdAt := 0 }, true),
         (1, .tick, true)]).2,
       ∀ m ∈ r.batch, r.time - m.createdAt ≤ (OscConfig.mk 144 2 7).ttlS)) :=
  ⟨by decide,
   oscQueue_cooldown_and_ttl (OscConfig.mk 144 2 7) (by decide)
     [(0, .enqueue { utteranceId := 0, text := "hi", createdAt := 0 }, true),
      (1, .tick, true)]⟩

/-!
Claim C5 (PCM round trip).
-/

/-- Claim C5, counterexample.  The claim states the round trip is the
identity on all sample values in the closed interval from minus one to
one minus two to the minus fifteen; equivalently that re-encoding n over
32768 returns n for every int16 n.  It is false at n = -32768: that
sample decodes to exactly -1 (inside the claimed interval) and re-encodes
to round(-1 times 32767) = -32767.  (Other failures: 20000 re-encodes to
19999.) -/
theorem pcm_roundtrip_cex :
    pcm16ToF32 (-32768) = -1 ∧
    f32ToPcm16 (pcm16ToF32 (-32768)) = -32767 ∧
    ((-32767 : ℤ) ≠ -32768) := by
  have hd : pcm16ToF32 (-32768) = -1 := by
    unfold pcm16ToF32
    norm_num
  refine ⟨hd, ?_, by decide⟩
  rw [hd]
  unfold f32ToPcm16
  have hmin : min (1 : ℚ) (-1) = -1 := by norm_num
  have hmax : max (-1 : ℚ) (-1) = -1 := max_self _
  rw [hmin, hmax]
  have hc : (-1 : ℚ) * 32767 = ((-32767 : ℤ) : ℚ) + 0 := by norm_num
  rw [hc]
  exact roundHalfEven_add_small (-32767) 0 (by norm_num) (by norm_num)

/-- Claim C5, amended.  The round trip decode-then-encode is the identity
on int16 samples n with -16368 <= n <= 16368 (sample values of magnitude
at most 16368/32768, about 0.4995).  Outside this range the mismatched
scale factors (divide by 32768, multiply by 32767) can shift a sample by
one step, as the counterexample shows.  The bound 16368 also keeps the
statement true under the float32 rounding of the product, which this
model idealises as exact: between 16369 and 16384 the exact and float32
results can differ on odd samples. -/
theorem pcm_roundtrip_identity_small (n : ℤ) (h1 : -16368 ≤ n) (h2 : n ≤ 16368) :
    f32ToPcm16 (pcm16ToF32 n) = n := by
  unfold f32ToPcm16 pcm16ToF32
  have hq1 : (-16368 : ℚ) ≤ (n : ℚ) := by exact_mod_cast h1
  have hq2 : (n : ℚ) ≤ 16368 := by exact_mod_cast h2
  have hxle : (n : ℚ) / 32768 ≤ 1 := by linarith
  have hxge : (-1 : ℚ) ≤ (n : ℚ) / 32768 := by linarith
  rw [min_eq_right hxle, max_eq_right hxge]
  have hrw : (n : ℚ) / 32768 * 32767 = (n : ℚ) + (-(n : ℚ) / 32768) := by ring
  rw [hrw]
  exact roundHalfEven_add_small n _ (by linarith) (by linarith)

/-- Claim C5, witness for the amended theorem at n = 12345. -/
theorem pcm_roundtrip_identity_small_witness :
    ((-16368 : ℤ) ≤ 12345 ∧ (12345 : ℤ) ≤ 16368) ∧
    f32ToPcm16 (pcm16ToF32 12345) = 12345 :=
  ⟨⟨by decide, by decide⟩, pcm_roundtrip_identity_small 12345 (by decide) (by decide)⟩

/-!
Claim C6 (ring buffer last-samples contract).
-/

/-- Claim C6.  The claim states that after appends totalling k samples,
get_last_samples(n) with n at most min(k, capacity) returns exactly the
last n appended samples.  The code violates it: an append that wraps past
the end of the buffer without landing exactly on index 0 leaves the
filled flag False although the buffer has wrapped, so get_last_samples
believes only write_pos samples are available.  With capacity 4, appends
of [1,2,3] and then [4,5] (k = 5), get_last_samples(4) returns just [5]
instead of [2,3,4,5]: recorded as a code bug (the data is written
correctly and the wrap-reading path exists; only the flag update misses
the wrap case).  This theorem evaluates the code at the failing input. -/
theorem ringBuffer_wrap_losing_append :
    (appendAll (freshRB 4) [[1, 2, 3], [4, 5]]).getLastSamples 4 = [5] ∧
    (appendAll (freshRB 4) [[1, 2, 3], [4, 5]]).filled = false ∧
    ([5] : List ℚ) ≠ [2, 3, 4, 5] := by
  refine ⟨by decide, by decide, by decide⟩

/-!
Claim C7 (OSC queue behaviour on a failed send).
-/

/-- Concrete queue state for claim C7: one expired and one fresh pending
message, cooldown elapsed. -/
def oscExpiredMixState : QState :=
  { pending := [{ utteranceId := 1, text := "old", createdAt := 0 },
                { utteranceId := 2, text := "fresh", createdAt := 9 }]
    nextSendAt := 0 }

/-- Claim C7, counterexample.  The claim states that when the sender
raises on the first page, the pending list is left unchanged.  This is
false: _drop_expired has already pruned expired messages in place before
the send is attempted, so after the failed send the pending list is the
expiry-filtered list, not the original.  Here the expired message with
created_at 0 is gone. -/
theorem oscQueue_failed_send_pending_changed_cex :
    (processDue (OscConfig.mk 144 2 7) 10 false oscExpiredMixState).2 =
      some { time := 10, text := "fresh"
             batch := [{ utteranceId := 2, text := "fresh", createdAt := 9 }]
             ok := false } ∧
    (processDue (OscConfig.mk 144 2 7) 10 false oscExpiredMixState).1.pending ≠
      oscExpiredMixState.pending := by
  have hdrop : dropExpired (OscConfig.mk 144 2 7) 10 oscExpiredMixState.pending =
      [{ utteranceId := 2, text := "fresh", createdAt := 9 }] := by
    norm_num [dropExpired, oscExpiredMixState]
  constructor
  · unfold processDue
    rw [if_neg (by decide : ¬ ((10:ℚ) < oscExpiredMixState.nextSendAt))]
    simp only [hdrop]
    decide
  · unfold processDue
    rw [if_neg (by decide : ¬ ((10:ℚ) < oscExpiredMixState.nextSendAt))]
    simp only [hdrop]
    decide

/-- Claim C7, amended.  When the cooldown has elapsed, the expiry-filtered
pending list is non-empty and combines to non-empty text, and the sender
fails, process_due leaves the pending list equal to that expiry-filtered
list (only already-expired messages were removed, and they contributed
nothing to the attempted text) and does not advance next_send_at, so the
same combined content is retried on the next tick. -/
theorem oscQueue_failed_send_keeps_filtered (cfg : OscConfig) (st : QState) (now : ℚ)
    (h1 : st.nextSendAt ≤ now)
    (h2 : dropExpired cfg now st.pending ≠ [])
    (h3 : combineText (dropExpired cfg now st.pending) ≠ "") :
    (processDue cfg now false st).1 =
      { pending := dropExpired cfg now st.pending, nextSendAt := st.nextSendAt } ∧
    (processDue cfg now false st).2 =
      some { time := now
             text := (splitText cfg.maxChars (combineText (dropExpired cfg now st.pending))).headD ""
             batch := dropExpired cfg now st.pending
             ok := false } := by
  unfold processDue
  rw [if_neg (not_lt.mpr h1)]
  simp [List.isEmpty_iff, h2, h3]

/-- Concrete queue state for the C7 witness: a single fresh message. -/
def oscRetryState : QState :=
  { pending := [{ utteranceId := 1, text := "hi", createdAt := 9 }], nextSendAt := 0 }

/-- Claim C7, witness for the amended theorem. -/
theorem oscQueue_failed_send_keeps_filtered_witness :
    (oscRetryState.nextSendAt ≤ (10 : ℚ) ∧
     dropExpired (OscConfig.mk 144 2 7) 10 oscRetryState.pending ≠ [] ∧
     combineText (dropExpired (OscConfig.mk 144 2 7) 10 oscRetryState.pending) ≠ "") ∧
    ((processDue (OscConfig.mk 144 2 7) 10 false oscRetryState).1 =
      { pending := dropExpired (OscConfig.mk 144 2 7) 10 oscRetryState.pending
        nextSendAt := oscRetryState.nextSendAt } ∧
     (processDue (OscConfig.mk 144 2 7) 10 false oscRetryState).2 =
      some { time := 10
             text := (splitText (OscConfig.mk 144 2 7).maxChars
               (combineText (dropExpired (OscConfig.mk 144 2 7) 10 oscRetryState.pending))).headD ""
             batch := dropExpired (OscConfig.mk 144 2 7) 10 oscRetryState.pending
             ok := false }) := by
  have hdrop : dropExpired (OscConfig.mk 144 2 7) 10 oscRetryState.pending =
      [{ utteranceId := 1, text := "hi", createdAt := 9 }] := by
    norm_num [dropExpired, oscRetryState]
  refine ⟨⟨by decide, by rw [hdrop]; decide, by rw [hdrop]; decide⟩, ?_⟩
  exact oscQueue_failed_send_keeps_filtered (OscConfig.mk 144 2 7) oscRetryState 10
    (by decide) (by rw [hdrop]; decide) (by rw [hdrop]; decide)

/-!
Claim C8 (utterance bundle invariant).
-/

/-- Claim C8.  UtteranceBundle.with_transcript preserves the invariant
that a set final implies no partial: a final transcript is stored and the
partial cleared; a partial arriving after a final has been set leaves the
bundle unchanged. -/
theorem bundle_final_clears_partial (b : UtteranceBundle) (t : TranscriptRec)
    (bNext : UtteranceBundle) (h : b.withTranscript t = .ok bNext) :
    ((b.final ≠ none → b.partialTr = none) → (bNext.final ≠ none → bNext.partialTr = none)) ∧
    (t.isFinal = true → bNext.final = some t ∧ bNext.partialTr = none) ∧
    (t.isFinal = false → b.final ≠ none → bNext = b) := by
  unfold UtteranceBundle.withTranscript at h
  split_ifs at h with h1 h2 h3 <;>
    simp only [Except.ok.injEq] at h <;> subst h <;> simp_all

/-- Bundle already holding a final transcript, used by the C8 witness. -/
def bundleWithFinal : UtteranceBundle :=
  { utteranceId := 3
    partialTr := none
    final := some { utteranceId := 3, text := "f", isFinal := true, createdAt := none }
    translation := none }

/-- Late partial transcript for the C8 witness. -/
def lateTr : TranscriptRec :=
  { utteranceId := 3, text := "p", isFinal := false, createdAt := none }

/-- Claim C8, witness: a partial arriving after the final leaves the
bundle unchanged and the invariant is preserved. -/
theorem bundle_final_clears_partial_witness :
    (bundleWithFinal.withTranscript lateTr = .ok bundleWithFinal) ∧
    (((bundleWithFinal.final ≠ none → bundleWithFinal.partialTr = none) →
        (bundleWithFinal.final ≠ none → bundleWithFinal.partialTr = none)) ∧
     (lateTr.isFinal = true →
        bundleWithFinal.final = some lateTr ∧ bundleWithFinal.partialTr = none) ∧
     (lateTr.isFinal = false → bundleWithFinal.final ≠ none →
        bundleWithFinal = bundleWithFinal)) :=
  ⟨rfl, bundle_final_clears_partial bundleWithFinal lateTr bundleWithFinal rfl⟩

/-!
Claim C9 (OSC queue with blank combined text).
-/

/-- Claim C9.  When the cooldown has elapsed and the space-joined, trimmed
concatenation of the non-expired pending texts is empty, process_due
clears the pending list, makes no send attempt, and leaves next_send_at
unchanged. -/
theorem oscQueue_empty_combined_clears (cfg : OscConfig) (st : QState) (now : ℚ) (ok : Bool)
    (h1 : st.nextSendAt ≤ now)
    (h2 : combineText (dropExpired cfg now st.pending) = "") :
    processDue cfg now ok st = ({ pending := [], nextSendAt := st.nextSendAt }, none) := by
  unfold processDue
  rw [if_neg (not_lt.mpr h1)]
  by_cases hp : (dropExpired cfg now st.pending).isEmpty
  · simp [hp, List.isEmpty_iff.mp hp]
  · simp [hp, h2]

/-- Queue state whose one pending message has empty text, for the C9
witness. -/
def oscBlankState : QState :=
  { pending := [{ utteranceId := 1, text := "", createdAt := 0 }], nextSendAt := 0 }

/-- Claim C9, witness at a concrete state whose combined text is empty. -/
theorem oscQueue_empty_combined_clears_witness :
    (oscBlankState.nextSendAt ≤ (0 : ℚ) ∧
     combineText (dropExpired (OscConfig.mk 144 2 7) 0 oscBlankState.pending) = "") ∧
    processDue (OscConfig.mk 144 2 7) 0 true oscBlankState =
      ({ pending := [], nextSendAt := oscBlankState.nextSendAt }, none) := by
  have hdrop : dropExpired (OscConfig.mk 144 2 7) 0 oscBlankState.pending =
      [{ utteranceId := 1, text := "", createdAt := 0 }] := by
    norm_num [dropExpired, oscBlankState]
  refine ⟨⟨by decide, by rw [hdrop]; decide⟩, ?_⟩
  exact oscQueue_empty_combined_clears (OscConfig.mk 144 2 7) oscBlankState 0 true
    (by decide) (by rw [hdrop]; decide)

/-!
Claim C10 (ring buffer empty append).
-/

/-- Claim C10.  Appending a zero-length sample sequence is a no-op for
every buffer state: the whole state (contents, write position, filled
flag) is unchanged, so every subsequent get_last_samples call returns the
same result as before. -/
theorem ringBuffer_append_empty_noop (rb : RingBufferF32) :
    rb.append [] = rb ∧ ∀ n : Int, (rb.append []).getLastSamples n = rb.getLastSamples n := by
  have h : rb.append [] = rb := rfl
  exact ⟨h, fun n => by rw [h]⟩
